import Mathlib

/-!
Verification development for the assembly-kit direct-RL environment
(`source/isaaclab_tasks/isaaclab_tasks/direct/assembly_kit/assembly_kit_env.py`).

Shallow embedding conventions:
* torch float tensors are idealized as exact reals; per-environment rows of a
  tensor become Lean functions from the (natural-number) index, except where a
  tensor's SIZE is itself semantically relevant (the `target_goal_pos` /
  `target_goal_rot` / `target_pos` / `target_quat` attributes are wholesale
  re-assigned by the sampler, so they are modelled as lists whose length is
  the length of the last assignment).
* torch operations that raise (advanced-indexing out of range, `torch.randint`
  with an empty range, `gather` with an out-of-range index) are modelled as
  `Except.error`; state mutations that in Python would precede an exception
  are not modelled — only completed calls produce a state.
* random draws are explicit inputs (`Draws`); a torch seed determines some
  in-range draw vector, so "for every seed" is modelled as universal
  quantification over in-range draws.
-/

namespace AssemblyKit

/-- A 3-vector of reals (one row of a torch `(*, 3)` float tensor). -/
@[ext]
structure Vec3 where
  x : ℝ
  y : ℝ
  z : ℝ

instance : Inhabited Vec3 := ⟨⟨0, 0, 0⟩⟩

instance : Add Vec3 := ⟨fun a b => ⟨a.x + b.x, a.y + b.y, a.z + b.z⟩⟩

instance : Sub Vec3 := ⟨fun a b => ⟨a.x - b.x, a.y - b.y, a.z - b.z⟩⟩

/-- Scalar multiple of a 3-vector. -/
def smul3 (c : ℝ) (v : Vec3) : Vec3 := ⟨c * v.x, c * v.y, c * v.z⟩

/-- Cross product of 3-vectors. -/
def cross (a b : Vec3) : Vec3 :=
  ⟨a.y * b.z - a.z * b.y, a.z * b.x - a.x * b.z, a.x * b.y - a.y * b.x⟩

/-- A quaternion in `(w, x, y, z)` (scalar-first) convention, as used by the
Isaac tensor API. -/
@[ext]
structure Quat where
  w : ℝ
  x : ℝ
  y : ℝ
  z : ℝ

/-- The identity rotation. -/
def idQuat : Quat := ⟨1, 0, 0, 0⟩

instance : Inhabited Quat := ⟨idQuat⟩

/-- The vector (imaginary) part of a quaternion. -/
def quatVec (q : Quat) : Vec3 := ⟨q.x, q.y, q.z⟩

/-- Modelled from the spec: `compose` of §4.1 Frame Math ("rotate B's rotation
by A's rotation"); the quaternion Hamilton product used by the external
`isaacsim.core.utils.torch.transformations.tf_combine` collaborator. -/
def quatMul (a b : Quat) : Quat :=
  ⟨a.w * b.w - a.x * b.x - a.y * b.y - a.z * b.z,
   a.w * b.x + a.x * b.w + a.y * b.z - a.z * b.y,
   a.w * b.y - a.x * b.z + a.y * b.w + a.z * b.x,
   a.w * b.z + a.x * b.y - a.y * b.x + a.z * b.w⟩

/-- Modelled from the spec: rotation of a vector by a (unit) quaternion, as
performed inside the external `tf_combine` collaborator
(`v + 2 q⃗ × (q⃗ × v + w v)`, the standard sandwich-product expansion). -/
def quatApply (q : Quat) (v : Vec3) : Vec3 :=
  v + smul3 2 (cross (quatVec q) (cross (quatVec q) v + smul3 q.w v))

/-- Modelled from the spec: `compose(quatA, posA, quatB, posB)` of §4.1
("standard rigid-transform composition: rotate B's rotation by A's rotation,
rotate+translate B's position by A's transform"); the external
`tf_combine(q1, t1, q2, t2)` returning `(quat, pos)`. -/
def tfCombine (qa : Quat) (pa : Vec3) (qb : Quat) (pb : Vec3) : Quat × Vec3 :=
  (quatMul qa qb, quatApply qa pb + pa)

/-- A rigid-body pose: the `[:7]` slice of a root-state row. -/
structure Pose where
  pos : Vec3
  quat : Quat

instance : Inhabited Pose := ⟨⟨default, idQuat⟩⟩

/-- Modelled from the spec: `isaaclab.utils.math.quat_from_euler_xyz`
(repository code not under `src/`); the standard XYZ-Euler-to-quaternion
conversion.  The environment only ever calls it with zero roll and pitch. -/
noncomputable def quatFromEulerXYZ (roll pitch yaw : ℝ) : Quat :=
  let cy := Real.cos (yaw / 2)
  let sy := Real.sin (yaw / 2)
  let cr := Real.cos (roll / 2)
  let sr := Real.sin (roll / 2)
  let cp := Real.cos (pitch / 2)
  let sp := Real.sin (pitch / 2)
  ⟨cy * cr * cp + sy * sr * sp,
   cy * sr * cp - sy * cr * sp,
   cy * cr * sp + sy * sr * cp,
   sy * cr * cp - cy * sr * sp⟩

/-- Two-argument arctangent (principal value in `(-π, π]`-style convention). -/
noncomputable def atan2 (y x : ℝ) : ℝ :=
  if 0 < x then Real.arctan (y / x)
  else if x < 0 then
    (if 0 ≤ y then Real.arctan (y / x) + Real.pi else Real.arctan (y / x) - Real.pi)
  else
    (if 0 < y then Real.pi / 2 else if y < 0 then -(Real.pi / 2) else 0)

/-- Modelled from the spec: `euler_z(quat) -> angle` of §4.1 ("extracts the
rotation about the vertical (Z) axis"); the Z component of
`isaaclab.utils.math.euler_xyz_from_quat` (repository code not under `src/`),
i.e. the standard yaw extraction. -/
noncomputable def eulerZ (q : Quat) : ℝ :=
  atan2 (2 * (q.w * q.z + q.x * q.y)) (1 - 2 * (q.y ^ 2 + q.z ^ 2))

/-- torch `%` on floats with a positive divisor (floor-mod):
`a % b = a - b * ⌊a / b⌋`. -/
noncomputable def fmod (a b : ℝ) : ℝ := a - b * ⌊a / b⌋

/-- The symmetry-folded rotational error of `is_success` (source lines
629-645): the absolute Z-angle difference is wrapped modulo the symmetry
period and, when it exceeds half the period, reflected to the shorter arc. -/
noncomputable def rotDiffFolded (cur goal p : ℝ) : ℝ :=
  let d := fmod |cur - goal| p
  if p / 2 < d then p - d else d

/-! ## Static configuration (Kit Catalog, scene constants) -/

/-- Static data of one `AssemblyKitEnv` instance: everything built once in
`_setup_scene` / `_init_model_sampling` / the config object, immutable
afterwards.  Tables are total functions; only indices below the stated bounds
are ever read. -/
structure Config where
  /-- number of parallel environments (`self.num_envs`). -/
  numEnvs : ℕ
  /-- number of kit variants (`len(kit_usd_paths)`). -/
  numKits : ℕ
  /-- slots per kit, `K` (`self.model_target_pos.shape[1]`, `num_models`). -/
  numModels : ℕ
  /-- number of candidate staging offsets
  (`self.kit_target_starting_pos.shape[1]`). -/
  numProposals : ℕ
  /-- Source `self.model_target_pos[kit, slot]`: kit-local goal position. -/
  modelTargetPos : ℕ → ℕ → Vec3
  /-- Source `self.model_target_rot[kit, slot]`: goal Z-rotation. -/
  modelTargetRot : ℕ → ℕ → ℝ
  /-- Source `self.kit_target_starting_pos[kit, idx]`: candidate staging offset. -/
  kitTargetStartingPos : ℕ → ℕ → Vec3
  /-- Source `env_assets_info[env]["model_ids"][slot]` =
  `self.model_ids_matrix_per_env[env, slot]`: slot→shape-type id. -/
  modelIds : ℕ → ℕ → ℕ
  /-- Source `self.symmetry[shape_type]`: rotational-symmetry period. -/
  symmetry : ℕ → ℝ
  /-- Source `self.scene.env_origins[env]`. -/
  envOrigin : ℕ → Vec3
  /-- position part of `self.kit.data.default_root_state` (the same for every
  environment: the kit config's `init_state.pos = (0.55, 0.0, 0.007)`). -/
  kitDefaultPos : Vec3
  /-- Source `models[m].data.default_root_state[env][:7]`. -/
  modelDefault : ℕ → ℕ → Pose
  /-- Source `self.cfg.table_offset`. -/
  tableOffset : ℝ
  /-- Source `self.max_episode_length`. -/
  maxEpisodeLength : ℕ

/-- Source `self.kit_ids_per_env[e] = e % num_kits` (source line 329). -/
def kitIdOf (cfg : Config) (e : ℕ) : ℕ := e % cfg.numKits

/-- Source `kit_pos_w` for environment `e`: kit default position plus the
environment origin (source lines 699-700). -/
def kitPosWOf (cfg : Config) (e : ℕ) : Vec3 := cfg.kitDefaultPos + cfg.envOrigin e

/-- The fixed staging offset written over a picked distractor's kit-local
position: `[-self.cfg.table_offset, 0.2, 0.1]` (source lines 762-766). -/
noncomputable def stagedOffset (cfg : Config) : Vec3 := ⟨-cfg.tableOffset, 2/10, 1/10⟩

/-! ## Mutable environment state -/

/-- The mutable per-process state read and written by the core: episode-state
attributes of the sampler, written object poses, wrist pose, cached local
TCP, and the step counter.  `modelPoses m e` is the current root pose of
rigid object `Model_m` in environment `e` (the sampler writes it; physics —
an external collaborator — may overwrite it between steps, which is the state
the evaluator then reads). -/
@[ext]
structure EnvState where
  /-- Source `self._current_target[:, 0]`. -/
  currentTarget : ℕ → ℕ
  /-- Source `self.current_target_model_id`. -/
  currentTargetModelId : ℕ → ℕ
  /-- Source `self.target_pos` (the staging offsets of the last sampled subset;
  a list because the attribute is wholesale re-assigned per call). -/
  targetPos : List Vec3
  /-- Source `self.target_quat`. -/
  targetQuat : List Quat
  /-- Source `self.target_goal_pos`. -/
  targetGoalPos : List Vec3
  /-- Source `self.target_goal_rot`. -/
  targetGoalRot : List ℝ
  /-- world root pose of `Model_m` in environment `e`. -/
  modelPoses : ℕ → ℕ → Pose
  /-- Source `self.episode_length_buf`. -/
  episodeLengthBuf : ℕ → ℕ
  /-- current world pose of the wrist link (`body_pos_w`/`body_quat_w` at
  `hand_link_idx`). -/
  handPose : ℕ → Pose
  /-- cached `self.robot_local_grasp_pos[e]` (computed once at construction). -/
  localGraspPos : ℕ → Vec3
  /-- cached `self.robot_local_grasp_rot[e]`. -/
  localGraspRot : ℕ → Quat

/-- The random draws consumed by one `sample_models_for_envs` call, indexed
by position `p` in `env_ids`.  A torch generator state determines one such
record with all values in range; quantifying over in-range draws quantifies
over seeds. -/
structure Draws where
  /-- Source `choice = torch.randint(0, num_models, (num_envs,))`. -/
  choice : ℕ → ℕ
  /-- Source `sampled_idx = torch.randint(0, kit_target_starting_pos.shape[1], ...)`. -/
  startIdx : ℕ → ℕ
  /-- Source `rot_t = torch.rand(num_envs) * 2 * math.pi`. -/
  rotT : ℕ → ℝ
  /-- Source `do_pick = torch.rand(num_envs) < 0.5`. -/
  doPick : ℕ → Bool
  /-- Source `cols = torch.randint(0, num_models - 1, (num_envs,))`. -/
  cols : ℕ → ℕ

/-! ## The episode sampler (`sample_models_for_envs`, source lines 685-804) -/

/-- Source `others_idx` row for chosen column `c`: the non-chosen columns of
`range K` in increasing order (source lines 716-722). -/
def othersIdx (k c : ℕ) : List ℕ := (List.range k).filter (fun m => m ≠ c)

/-- Source `self._current_target[env_ids] = choice.unsqueeze(1)` (source line 708):
scatter the drawn slot into the full-size buffer at the *global* environment
indices. -/
def ctAfter (st : EnvState) (envIds : List ℕ) (d : Draws) : ℕ → ℕ :=
  (List.range envIds.length).foldl
    (fun f p => Function.update f (envIds.getD p 0) (d.choice p)) st.currentTarget

/-- One advanced-indexing assignment `buf[i] = v` into a positional buffer of
`n` rows; raises (as torch does) when `i` is out of range. -/
def scatterAt (n : ℕ) (buf : ℕ → Pose) (iv : ℕ × Pose) : Except String (ℕ → Pose) :=
  if iv.1 < n then .ok (Function.update buf iv.1 iv.2) else .error "index out of range"

/-- A masked advanced-indexing assignment: a sequence of single writes. -/
def scatterAll (n : ℕ) (buf : ℕ → Pose) (ws : List (ℕ × Pose)) :
    Except String (ℕ → Pose) :=
  ws.foldlM (scatterAt n) buf

/-- Source `write_root_pose_to_sim(default[:, :7], env_ids)`: row `p` of the
positional buffer is written to environment `env_ids[p]`. -/
def writeToSim (cur : ℕ → Pose) (envIds : List ℕ) (buf : ℕ → Pose) : ℕ → Pose :=
  ((List.range envIds.length).map (fun p => (envIds.getD p 0, buf p))).foldl
    (fun f iv => Function.update f iv.1 iv.2) cur

/-- The target starting pose for subset position `p` (source lines 724-738):
kit world position + drawn staging offset, with a drawn Z-rotation. -/
noncomputable def targetPoseAt (cfg : Config) (envIds : List ℕ) (d : Draws) (p : ℕ) : Pose :=
  let e := envIds.getD p 0
  ⟨kitPosWOf cfg e + cfg.kitTargetStartingPos (kitIdOf cfg e) (d.startIdx p),
   quatFromEulerXYZ 0 0 (d.rotT p)⟩

/-- The world pose written for the distractor at column `j` of the
`others_idx` row of subset position `p` (source lines 750-769): the kit-local
goal position — overridden by the fixed staging offset where the per-env pick
selected column `j` — plus the kit world position; the rotation is the goal
Z-rotation (never overridden). -/
noncomputable def otherPoseAt (cfg : Config) (envIds : List ℕ) (d : Draws) (p j : ℕ) : Pose :=
  let e := envIds.getD p 0
  let slot := (othersIdx cfg.numModels (d.choice p)).getD j 0
  ⟨kitPosWOf cfg e +
     (if d.doPick p ∧ j = d.cols p then stagedOffset cfg
      else cfg.modelTargetPos (kitIdOf cfg e) slot),
   quatFromEulerXYZ 0 0 (cfg.modelTargetRot (kitIdOf cfg e) slot)⟩

/-- The masked target-write list of one iteration of the per-model loop
(source lines 780-787): pairs `(global env id, pose)` for the subset
positions whose drawn target slot is `m`.  Note the *global* ids `envs_t =
env_ids[mask_t]` index the positionally-gathered buffer, exactly as in the
source. -/
noncomputable def targetWrites (cfg : Config) (envIds : List ℕ) (d : Draws)
    (m : ℕ) : List (ℕ × Pose) :=
  ((List.range envIds.length).filter (fun p => d.choice p = m)).map
    (fun p => (envIds.getD p 0, targetPoseAt cfg envIds d p))

/-- The masked distractor-write list of one iteration of the per-model loop
(source lines 789-802): pairs `(global env id, pose)` for the flattened
`(position, column)` pairs whose `others_idx` entry is `m`. -/
noncomputable def otherWrites (cfg : Config) (envIds : List ℕ) (d : Draws)
    (m : ℕ) : List (ℕ × Pose) :=
  (List.range envIds.length).flatMap (fun p =>
    (List.range (cfg.numModels - 1)).filterMap (fun j =>
      if (othersIdx cfg.numModels (d.choice p)).getD j 0 = m then
        some (envIds.getD p 0, otherPoseAt cfg envIds d p j)
      else none))

/-- One iteration of the per-model write loop (source lines 777-804) for
model index `m`.  `default` is gathered positionally over `env_ids`, but the
masked writes index it with the *global* environment ids `envs_t` / `envs_o`
exactly as the source does. -/
noncomputable def stepModel (cfg : Config) (envIds : List ℕ) (d : Draws)
    (poses : ℕ → ℕ → Pose) (m : ℕ) : Except String (ℕ → ℕ → Pose) := do
  -- default = models[m].data.default_root_state[env_ids].clone()
  let buf1 ← scatterAll envIds.length (fun p => cfg.modelDefault m (envIds.getD p 0))
    (targetWrites cfg envIds d m)
  let buf2 ← scatterAll envIds.length buf1 (otherWrites cfg envIds d m)
  -- models[m].write_root_pose_to_sim(default[:, :7], env_ids)
  pure (fun m' => if m' = m then writeToSim (poses m) envIds buf2 else poses m')

/-- Source `sample_models_for_envs(env_ids)` (source lines 685-804).  Returns the
updated state, or an error where torch would raise. -/
noncomputable def sampleModelsForEnvs (cfg : Config) (st : EnvState)
    (envIds : List ℕ) (d : Draws) : Except String EnvState :=
  let n := envIds.length
  let k := cfg.numModels
  -- kit_ids = self.kit_ids_per_env[env_ids] (and every later use of env_ids
  -- as an index into a full-size tensor)
  if _h1 : ¬ ∀ e ∈ envIds, e < cfg.numEnvs then .error "env index out of range"
  -- choice = torch.randint(0, num_models, ...) requires 0 < num_models
  else if _h2 : k = 0 then .error "randint: from >= to (choice)"
  else
    let ct' := ctAfter st envIds d
    -- .gather(1, self._current_target) (source lines 709-715) requires every
    -- stored slot index below K
    if _h3 : ¬ ∀ e < cfg.numEnvs, ct' e < k then .error "gather index out of range"
    -- sampled_idx = torch.randint(0, kit_target_starting_pos.shape[1], ...)
    else if _h4 : cfg.numProposals = 0 then .error "randint: from >= to (start pos)"
    -- cols = torch.randint(0, num_models - 1, ...) requires 1 < num_models
    else if _h5 : k - 1 = 0 then .error "randint: from >= to (cols)"
    else
      ((List.range k).foldlM (stepModel cfg envIds d) st.modelPoses).map
        (fun poses' =>
          { st with
            currentTarget := ct'
            currentTargetModelId := fun e => cfg.modelIds e (ct' e)
            targetPos := (List.range n).map (fun p =>
              cfg.kitTargetStartingPos (kitIdOf cfg (envIds.getD p 0)) (d.startIdx p))
            targetQuat := (List.range n).map (fun p => quatFromEulerXYZ 0 0 (d.rotT p))
            targetGoalPos := (List.range n).map (fun p =>
              cfg.modelTargetPos (kitIdOf cfg (envIds.getD p 0)) (d.choice p))
            targetGoalRot := (List.range n).map (fun p =>
              cfg.modelTargetRot (kitIdOf cfg (envIds.getD p 0)) (d.choice p))
            modelPoses := poses' })

/-! ### Net effect of the write loop over an identity subset

For a call with `env_ids = [0, ..., n-1]` (the order produced by a full
reset), subset positions coincide with global environment ids, and the net
written pose of each slot has the following closed forms (proved below). -/

/-- The target starting pose the sampler writes for environment `e` when the
subset is the identity: kit world position + drawn staging offset, drawn
Z-rotation. -/
noncomputable def targetPoseOfEnv (cfg : Config) (d : Draws) (e : ℕ) : Pose :=
  ⟨kitPosWOf cfg e + cfg.kitTargetStartingPos (kitIdOf cfg e) (d.startIdx e),
   quatFromEulerXYZ 0 0 (d.rotT e)⟩

/-- The slot index of the distractor the staging coin-flip would send to the
side: column `cols e` of the `others_idx` row. -/
def stagedSlotOf (cfg : Config) (d : Draws) (e : ℕ) : ℕ :=
  (othersIdx cfg.numModels (d.choice e)).getD (d.cols e) 0

/-- The pose the sampler writes for non-target slot `m` of environment `e`
(identity subset): the kit-local goal position — or the fixed staging offset
when the coin flip picked this slot — plus the kit world position, with the
goal Z-rotation. -/
noncomputable def distractorPoseOfEnv (cfg : Config) (d : Draws) (e m : ℕ) : Pose :=
  ⟨kitPosWOf cfg e +
     (if d.doPick e ∧ stagedSlotOf cfg d e = m then stagedOffset cfg
      else cfg.modelTargetPos (kitIdOf cfg e) m),
   quatFromEulerXYZ 0 0 (cfg.modelTargetRot (kitIdOf cfg e) m)⟩

/-- The net pose written by a completed identity-subset sampler call for slot
`m` of environment `e`. -/
noncomputable def writtenPose (cfg : Config) (d : Draws) (m e : ℕ) : Pose :=
  if d.choice e = m then targetPoseOfEnv cfg d e else distractorPoseOfEnv cfg d e m

/-! ## Tolerance evaluator (`is_success`, source lines 607-652), rewards and
dones, and world-TCP computation -/

/-- Source `self.target_goal_pos[i]` as read by the evaluator. -/
def targetGoalPosAt (s : EnvState) (i : ℕ) : Vec3 := s.targetGoalPos.getD i default

/-- Source `self.target_goal_rot[i]` as read by the evaluator. -/
def targetGoalRotAt (s : EnvState) (i : ℕ) : ℝ := s.targetGoalRot.getD i 0

/-- Source `get_target_model_pose` (source lines 567-589) for environment `i`: the
current root pose of the environment's target model, position shifted to
environment-local coordinates. -/
def getTargetModelPose (cfg : Config) (s : EnvState) (i : ℕ) : Pose :=
  let p := s.modelPoses (s.currentTarget i) i
  ⟨p.pos - cfg.envOrigin i, p.quat⟩

/-- Source `pos_diff_norm` of `is_success` (source lines 623-625):
`torch.norm(target_goal_pos[:, :2] - target_model_pose[:, :2])`. -/
noncomputable def posDiffNorm (cfg : Config) (s : EnvState) (i : ℕ) : ℝ :=
  let tp := getTargetModelPose cfg s i
  let gp := targetGoalPosAt s i
  Real.sqrt ((gp.x - tp.pos.x) ^ 2 + (gp.y - tp.pos.y) ^ 2)

/-- The folded `rot_diff` of `is_success` (source lines 629-645): Z-Euler
angle of the target's current quaternion against the stored goal Z-rotation,
wrapped and folded by the target shape type's symmetry period. -/
noncomputable def rotDiffVal (cfg : Config) (s : EnvState) (i : ℕ) : ℝ :=
  rotDiffFolded (eulerZ (getTargetModelPose cfg s i).quat) (targetGoalRotAt s i)
    (cfg.symmetry (s.currentTargetModelId i))

/-- Default `pos_eps = 2e-2` of `is_success` (source line 608). -/
def posEpsDefault : ℝ := 2e-2

/-- Default `rot_eps = math.radians(4)` of `is_success` (source line 608). -/
noncomputable def rotEpsDefault : ℝ := 4 * (Real.pi / 180)

/-- Default `height_eps = 3e-3` of `is_success` (source line 608). -/
def heightEpsDefault : ℝ := 3e-3

/-- Source `is_success` (source lines 607-652) for environment `i`:
`pos_correct & rot_correct & height_correct`. -/
noncomputable def isSuccess (cfg : Config) (s : EnvState)
    (pos_eps rot_eps height_eps : ℝ) (i : ℕ) : Prop :=
  posDiffNorm cfg s i < pos_eps ∧ rotDiffVal cfg s i < rot_eps ∧
    (getTargetModelPose cfg s i).pos.z < height_eps

/-- Source `is_success()` with the default tolerances, as called by
`compute_rewards` and `_get_dones`. -/
noncomputable def isSuccessDefault (cfg : Config) (s : EnvState) (i : ℕ) : Prop :=
  isSuccess cfg s posEpsDefault rotEpsDefault heightEpsDefault i

open Classical in
/-- Source `compute_rewards` (source lines 595-598):
`torch.where(success_mask, ones, -ones)` with integer ones. -/
noncomputable def computeRewards (cfg : Config) (s : EnvState) (i : ℕ) : ℤ :=
  if isSuccessDefault cfg s i then 1 else -1

/-- Source `_get_dones` (source lines 600-605): `(terminated, time_out)` with
`terminated = is_success()` and
`time_out = episode_length_buf >= max_episode_length - 1`. -/
noncomputable def getDones (cfg : Config) (s : EnvState) (i : ℕ) : Prop × Prop :=
  (isSuccessDefault cfg s i, cfg.maxEpisodeLength - 1 ≤ s.episodeLengthBuf i)

/-- Source `_compute_tcp_world` (source lines 211-245) for environment `i`: composes
the current wrist world pose with the cached local TCP and shifts the
position by the environment origin. -/
def computeTcpWorld (cfg : Config) (s : EnvState) (i : ℕ) : Vec3 × Quat :=
  let hp := s.handPose i
  let rp := tfCombine hp.quat hp.pos (s.localGraspRot i) (s.localGraspPos i)
  (rp.2 - cfg.envOrigin i, rp.1)

/-! ## Spec-side (natural-language) formulations, for refinement claims -/

/-- Modelled from the spec: the Euclidean distance between two points in the
XY plane (§4.4 "Euclidean distance between target's current XY position and
goal XY position"). -/
noncomputable def euclideanDistXY (a b : Vec3) : ℝ :=
  Real.sqrt ((a.x - b.x) ^ 2 + (a.y - b.y) ^ 2)

/-- Modelled from the spec: the success criterion exactly as the claim C3
words it — XY distance strictly below `0.02`, symmetry-folded Z-rotation
error strictly below 4 degrees (`π/45` radians), current Z strictly below
`0.003`. -/
noncomputable def specSuccessC3 (cfg : Config) (s : EnvState) (i : ℕ) : Prop :=
  euclideanDistXY (getTargetModelPose cfg s i).pos (targetGoalPosAt s i) < 0.02 ∧
    rotDiffVal cfg s i < Real.pi / 45 ∧
    (getTargetModelPose cfg s i).pos.z < 0.003

/-- Modelled from the spec: the target goal position claim C2 asserts is
stored — the Kit Variant's goal row converted to world coordinates by adding
the kit's current world position, then to environment-local coordinates by
subtracting the environment origin. -/
noncomputable def specGoalPosC2 (cfg : Config) (e slot : ℕ) : Vec3 :=
  kitPosWOf cfg e + cfg.modelTargetPos (kitIdOf cfg e) slot - cfg.envOrigin e

/-! ## Concrete instances used by the counterexamples and witnesses -/

/-- A baseline state, as left by some earlier full reset: every environment's
target slot is 0, two goal records are stored. -/
noncomputable def stBase : EnvState where
  currentTarget := fun _ => 0
  currentTargetModelId := fun _ => 0
  targetPos := [⟨0, 0, 0⟩, ⟨0, 0, 0⟩]
  targetQuat := [idQuat, idQuat]
  targetGoalPos := [⟨0, 0, 0⟩, ⟨0, 0, 0⟩]
  targetGoalRot := [0, 0]
  modelPoses := fun _ _ => default
  episodeLengthBuf := fun _ => 0
  handPose := fun _ => default
  localGraspPos := fun _ => ⟨0, 0, 0⟩
  localGraspRot := fun _ => idQuat

/-- Deterministic draws: slot 0, proposal 0, zero rotation, no staging pick. -/
noncomputable def dZero : Draws where
  choice := fun _ => 0
  startIdx := fun _ => 0
  rotT := fun _ => 0
  doPick := fun _ => false
  cols := fun _ => 0

/-- Draws whose staging coin flip picks (column 0). -/
noncomputable def dPick : Draws where
  choice := fun _ => 0
  startIdx := fun _ => 0
  rotT := fun _ => 0
  doPick := fun _ => true
  cols := fun _ => 0

/-- Two environments, one kit of two slots, trivial tables. -/
noncomputable def cfgC1 : Config where
  numEnvs := 2
  numKits := 1
  numModels := 2
  numProposals := 1
  modelTargetPos := fun _ _ => ⟨0, 0, 0⟩
  modelTargetRot := fun _ _ => 0
  kitTargetStartingPos := fun _ _ => ⟨0, 0, 0⟩
  modelIds := fun _ _ => 0
  symmetry := fun _ => 1
  envOrigin := fun _ => ⟨0, 0, 0⟩
  kitDefaultPos := ⟨0, 0, 0⟩
  modelDefault := fun _ _ => default
  tableOffset := 0
  maxEpisodeLength := 10

/-- One environment, one kit with a single slot (`K = 1`, no distractors). -/
noncomputable def cfgC6 : Config where
  numEnvs := 1
  numKits := 1
  numModels := 1
  numProposals := 1
  modelTargetPos := fun _ _ => ⟨0, 0, 0⟩
  modelTargetRot := fun _ _ => 0
  kitTargetStartingPos := fun _ _ => ⟨0, 0, 0⟩
  modelIds := fun _ _ => 0
  symmetry := fun _ => 1
  envOrigin := fun _ => ⟨0, 0, 0⟩
  kitDefaultPos := ⟨0, 0, 0⟩
  modelDefault := fun _ _ => default
  tableOffset := 0
  maxEpisodeLength := 10

/-- Two environments with different kits and different origins: kit 0's slot-1
goal is `(1,0,0)`, kit 1's is `(2,0,0)`; environment 1 sits at `x = 100`. -/
noncomputable def cfgC7 : Config where
  numEnvs := 2
  numKits := 2
  numModels := 2
  numProposals := 1
  modelTargetPos := fun k _ => if k = 0 then ⟨1, 0, 0⟩ else ⟨2, 0, 0⟩
  modelTargetRot := fun _ _ => 0
  kitTargetStartingPos := fun _ _ => ⟨0, 0, 0⟩
  modelIds := fun _ _ => 0
  symmetry := fun _ => 1
  envOrigin := fun e => if e = 0 then ⟨0, 0, 0⟩ else ⟨100, 0, 0⟩
  kitDefaultPos := ⟨0, 0, 0⟩
  modelDefault := fun _ _ => default
  tableOffset := 0
  maxEpisodeLength := 10

/-- A state whose (single) target object sits exactly on its goal in XY and
rotation but 100 length units *below* the kit surface. -/
noncomputable def stC10 : EnvState :=
  { stBase with modelPoses := fun _ _ => ⟨⟨0, 0, -100⟩, idQuat⟩ }

/-! ## Remaining concrete instances for the sampler claims -/

/-- One environment, one kit; the kit's default position is the source's
`init_state.pos = (0.55, 0.0, 0.007)` and the slot goal rows are nonzero. -/
noncomputable def cfgC2 : Config where
  numEnvs := 1
  numKits := 1
  numModels := 2
  numProposals := 1
  modelTargetPos := fun _ _ => ⟨0.1, 0.2, 0⟩
  modelTargetRot := fun _ _ => 0
  kitTargetStartingPos := fun _ _ => ⟨0, 0, 0⟩
  modelIds := fun _ _ => 0
  symmetry := fun _ => 1
  envOrigin := fun _ => ⟨0, 0, 0⟩
  kitDefaultPos := ⟨0.55, 0, 0.007⟩
  modelDefault := fun _ _ => default
  tableOffset := 0
  maxEpisodeLength := 10

/-- Identical to `cfgC1` except the kit's default world position is moved by
one length unit along X. -/
noncomputable def cfgC5b : Config := { cfgC1 with kitDefaultPos := ⟨1, 0, 0⟩ }

/-- The state produced by the identity-subset reset `env_ids = range 1` of
`cfgC1` with the `dZero` draws (the closed form of the master lemma). -/
noncomputable def sW : EnvState :=
  { stBase with
    currentTarget := fun e => if e < 1 then dZero.choice e else stBase.currentTarget e
    currentTargetModelId := fun e =>
      cfgC1.modelIds e (if e < 1 then dZero.choice e else stBase.currentTarget e)
    targetPos := (List.range 1).map (fun p =>
      cfgC1.kitTargetStartingPos (kitIdOf cfgC1 p) (dZero.startIdx p))
    targetQuat := (List.range 1).map (fun p => quatFromEulerXYZ 0 0 (dZero.rotT p))
    targetGoalPos := (List.range 1).map (fun p =>
      cfgC1.modelTargetPos (kitIdOf cfgC1 p) (dZero.choice p))
    targetGoalRot := (List.range 1).map (fun p =>
      cfgC1.modelTargetRot (kitIdOf cfgC1 p) (dZero.choice p))
    modelPoses := fun m e =>
      if m < cfgC1.numModels ∧ e < 1 then writtenPose cfgC1 dZero m e
      else stBase.modelPoses m e }

/-- As `sW` but for the `dPick` draws (staging coin flip picks). -/
noncomputable def sWpick : EnvState :=
  { stBase with
    currentTarget := fun e => if e < 1 then dPick.choice e else stBase.currentTarget e
    currentTargetModelId := fun e =>
      cfgC1.modelIds e (if e < 1 then dPick.choice e else stBase.currentTarget e)
    targetPos := (List.range 1).map (fun p =>
      cfgC1.kitTargetStartingPos (kitIdOf cfgC1 p) (dPick.startIdx p))
    targetQuat := (List.range 1).map (fun p => quatFromEulerXYZ 0 0 (dPick.rotT p))
    targetGoalPos := (List.range 1).map (fun p =>
      cfgC1.modelTargetPos (kitIdOf cfgC1 p) (dPick.choice p))
    targetGoalRot := (List.range 1).map (fun p =>
      cfgC1.modelTargetRot (kitIdOf cfgC1 p) (dPick.choice p))
    modelPoses := fun m e =>
      if m < cfgC1.numModels ∧ e < 1 then writtenPose cfgC1 dPick m e
      else stBase.modelPoses m e }

/-- A sequence of keyed writes applied to a function. -/
def updAll {β : Type} (ws : List (ℕ × β)) (f : ℕ → β) : ℕ → β :=
  ws.foldl (fun g iv => Function.update g iv.1 iv.2) f

/-! ## Helper lemmas: sequences of indexed writes -/

@[simp] theorem Vec3.add_def (a b : Vec3) :
    a + b = ⟨a.x + b.x, a.y + b.y, a.z + b.z⟩ := rfl

@[simp] theorem Vec3.sub_def (a b : Vec3) :
    a - b = ⟨a.x - b.x, a.y - b.y, a.z - b.z⟩ := rfl


theorem updAll_nil {β : Type} (f : ℕ → β) : updAll [] f = f := rfl

theorem updAll_cons {β : Type} (w : ℕ × β) (ws : List (ℕ × β)) (f : ℕ → β) :
    updAll (w :: ws) f = updAll ws (Function.update f w.1 w.2) := rfl

/-- A key never written keeps its old value. -/
theorem updAll_of_not_key {β : Type} (ws : List (ℕ × β)) (f : ℕ → β) (i : ℕ)
    (h : ∀ w ∈ ws, w.1 ≠ i) : updAll ws f i = f i := by
  induction ws generalizing f with
  | nil => rfl
  | cons w ws ih =>
    rw [updAll_cons, ih _ (fun w' hw' => h w' (List.mem_cons_of_mem _ hw'))]
    exact Function.update_noteq (Ne.symm (h w (List.mem_cons_self _ _))) _ _

/-- A key written exactly one value (possibly several times) ends at that
value. -/
theorem updAll_of_key {β : Type} (ws : List (ℕ × β)) (f : ℕ → β) (i : ℕ) (v : β)
    (hmem : (i, v) ∈ ws) (huniq : ∀ w ∈ ws, w.1 = i → w.2 = v) :
    updAll ws f i = v := by
  induction ws generalizing f with
  | nil => cases hmem
  | cons w ws ih =>
    rw [updAll_cons]
    by_cases hrest : (i, v) ∈ ws
    · exact ih _ hrest (fun w' hw' => huniq w' (List.mem_cons_of_mem _ hw'))
    · have hw : w = (i, v) := by
        rcases List.mem_cons.mp hmem with h | h
        · exact h.symm
        · exact absurd h hrest
      subst hw
      have hnk : ∀ w' ∈ ws, w'.1 ≠ i := by
        intro w' hw' hkey
        have hv : w'.2 = v := huniq w' (List.mem_cons_of_mem _ hw') hkey
        have : w' = (i, v) := Prod.ext hkey hv
        exact hrest (this ▸ hw')
      rw [updAll_of_not_key ws _ i hnk, Function.update_same]

/-- A bounds-respecting scatter succeeds and equals the pure write sequence. -/
theorem scatterAll_ok (n : ℕ) (buf : ℕ → Pose) (ws : List (ℕ × Pose))
    (h : ∀ w ∈ ws, w.1 < n) : scatterAll n buf ws = .ok (updAll ws buf) := by
  induction ws generalizing buf with
  | nil => rfl
  | cons w ws ih =>
    have hw : w.1 < n := h w (List.mem_cons_self _ _)
    show (scatterAt n buf w) >>= (ws.foldlM (scatterAt n)) = _
    rw [scatterAt, if_pos hw]
    show ws.foldlM (scatterAt n) (Function.update buf w.1 w.2) = _
    exact ih _ (fun w' hw' => h w' (List.mem_cons_of_mem _ hw'))

/-- Source `List.range n` reads back its own positions. -/
theorem range_getD {n p : ℕ} (hp : p < n) : (List.range n).getD p 0 = p := by
  rw [List.getD_eq_getElem _ _ (by simpa using hp), List.getElem_range]

/-- Source `write_root_pose_to_sim` over the identity subset `range n` overwrites
exactly the environments below `n` with the positional buffer. -/
theorem writeToSim_range (cur : ℕ → Pose) (n : ℕ) (buf : ℕ → Pose) :
    writeToSim cur (List.range n) buf = fun e => if e < n then buf e else cur e := by
  have hRepr : writeToSim cur (List.range n) buf =
      updAll ((List.range n).map fun p => ((List.range n).getD p 0, buf p)) cur := by
    rw [writeToSim, updAll, List.length_range]
  funext e
  rw [hRepr]
  by_cases he : e < n
  · rw [if_pos he]
    refine updAll_of_key _ _ _ _ ?_ ?_
    · exact List.mem_map.mpr ⟨e, List.mem_range.mpr he, by rw [range_getD he]⟩
    · intro w hw hke
      rcases List.mem_map.mp hw with ⟨p, hp, rfl⟩
      have hp' := List.mem_range.mp hp
      rw [range_getD hp'] at hke
      have hpe : p = e := hke
      subst hpe
      rfl
  · rw [if_neg he]
    refine updAll_of_not_key _ _ _ ?_
    intro w hw
    rcases List.mem_map.mp hw with ⟨p, hp, rfl⟩
    have hp' := List.mem_range.mp hp
    rw [range_getD hp']
    omega

/-- Source `self._current_target[env_ids] = choice` over the identity subset. -/
theorem ctAfter_range (st : EnvState) (n : ℕ) (d : Draws) :
    ctAfter st (List.range n) d =
      fun e => if e < n then d.choice e else st.currentTarget e := by
  have hRepr : ctAfter st (List.range n) d =
      updAll ((List.range n).map fun p => ((List.range n).getD p 0, d.choice p))
        st.currentTarget := by
    rw [ctAfter, updAll, List.foldl_map, List.length_range]
  funext e
  rw [hRepr]
  by_cases he : e < n
  · rw [if_pos he]
    refine updAll_of_key _ _ _ _ ?_ ?_
    · exact List.mem_map.mpr ⟨e, List.mem_range.mpr he, by rw [range_getD he]⟩
    · intro w hw hke
      rcases List.mem_map.mp hw with ⟨p, hp, rfl⟩
      have hp' := List.mem_range.mp hp
      rw [range_getD hp'] at hke
      have hpe : p = e := hke
      subst hpe
      rfl
  · rw [if_neg he]
    refine updAll_of_not_key _ _ _ ?_
    intro w hw
    rcases List.mem_map.mp hw with ⟨p, hp, rfl⟩
    have hp' := List.mem_range.mp hp
    rw [range_getD hp']
    omega

/-! ## Helper lemmas: the `others_idx` row -/

theorem othersIdx_mem {k c m : ℕ} : m ∈ othersIdx k c ↔ m < k ∧ m ≠ c := by
  simp [othersIdx]

theorem othersIdx_nodup (k c : ℕ) : (othersIdx k c).Nodup :=
  (List.nodup_range k).filter _

theorem othersIdx_length {k c : ℕ} (hc : c < k) :
    (othersIdx k c).length = k - 1 := by
  induction k with
  | zero => omega
  | succ k ih =>
    rw [othersIdx, List.range_succ, List.filter_append]
    by_cases h : c = k
    · subst h
      have h1 : List.filter (fun m => decide (m ≠ c)) (List.range c) = List.range c := by
        refine List.filter_eq_self.mpr ?_
        intro a ha
        have := List.mem_range.mp ha
        exact decide_eq_true (by omega)
      have h2 : List.filter (fun m => decide (m ≠ c)) [c] = [] := by
        rw [List.filter_cons_of_neg (by simp), List.filter_nil]
      rw [h1, h2, List.append_nil, List.length_range]
      omega
    · have hck : c < k := by omega
      have hkc : k ≠ c := by omega
      have h1 : List.filter (fun m => decide (m ≠ c)) (List.range k) = othersIdx k c := rfl
      have h2 : List.filter (fun m => decide (m ≠ c)) [k] = [k] := by simp [hkc]
      rw [h1, h2, List.length_append, ih hck, List.length_cons, List.length_nil]
      omega

theorem othersIdx_getD_mem {k c j : ℕ} (hc : c < k) (hj : j < k - 1) :
    (othersIdx k c).getD j 0 ∈ othersIdx k c := by
  rw [List.getD_eq_getElem _ _ (by rw [othersIdx_length hc]; omega)]
  exact List.getElem_mem _

theorem othersIdx_getD_inj {k c j1 j2 : ℕ} (hc : c < k)
    (h1 : j1 < k - 1) (h2 : j2 < k - 1)
    (he : (othersIdx k c).getD j1 0 = (othersIdx k c).getD j2 0) : j1 = j2 := by
  have hl := othersIdx_length hc
  have hj1 : j1 < (othersIdx k c).length := by omega
  have hj2 : j2 < (othersIdx k c).length := by omega
  rw [List.getD_eq_getElem _ _ hj1] at he
  rw [List.getD_eq_getElem _ _ hj2] at he
  exact ((othersIdx_nodup k c).getElem_inj_iff).mp he

theorem othersIdx_exists_getD {k c m : ℕ} (hc : c < k) (hm : m < k) (hne : m ≠ c) :
    ∃ j, j < k - 1 ∧ (othersIdx k c).getD j 0 = m := by
  rcases List.mem_iff_getElem.mp (othersIdx_mem.mpr ⟨hm, hne⟩) with ⟨j, hj, hjm⟩
  refine ⟨j, by rw [othersIdx_length hc] at hj; exact hj, ?_⟩
  rw [List.getD_eq_getElem _ _ hj]
  exact hjm

/-! ## Helper lemmas: the write lists over an identity subset -/

theorem targetPoseAt_range {cfg : Config} {d : Draws} {n p : ℕ} (hp : p < n) :
    targetPoseAt cfg (List.range n) d p = targetPoseOfEnv cfg d p := by
  rw [targetPoseAt, targetPoseOfEnv, range_getD hp]

theorem otherPoseAt_eq {cfg : Config} {d : Draws} {n p j m : ℕ} (hp : p < n)
    (hj : j < cfg.numModels - 1)
    (hchoice : d.choice p < cfg.numModels)
    (hcol : d.cols p < cfg.numModels - 1)
    (hm : (othersIdx cfg.numModels (d.choice p)).getD j 0 = m) :
    otherPoseAt cfg (List.range n) d p j = distractorPoseOfEnv cfg d p m := by
  rw [otherPoseAt, distractorPoseOfEnv, range_getD hp, hm]
  have hcond : (d.doPick p ∧ j = d.cols p) ↔ (d.doPick p ∧ stagedSlotOf cfg d p = m) := by
    refine and_congr_right (fun _ => ?_)
    constructor
    · intro hjc
      rw [stagedSlotOf, ← hjc, hm]
    · intro hsl
      rw [stagedSlotOf] at hsl
      exact (othersIdx_getD_inj hchoice hj hcol (hm.trans hsl.symm)).symm ▸ rfl
  rw [if_congr hcond rfl rfl]

theorem targetWrites_mem {cfg : Config} {d : Draws} {n m i : ℕ} {v : Pose} :
    (i, v) ∈ targetWrites cfg (List.range n) d m ↔
      i < n ∧ d.choice i = m ∧ v = targetPoseOfEnv cfg d i := by
  rw [targetWrites, List.length_range]
  constructor
  · intro h
    rcases List.mem_map.mp h with ⟨p, hp, hpv⟩
    have hpmem := List.mem_filter.mp hp
    have hpn : p < n := List.mem_range.mp hpmem.1
    have hpc : d.choice p = m := by simpa using hpmem.2
    rw [range_getD hpn] at hpv
    have hip : p = i := congrArg Prod.fst hpv
    subst hip
    refine ⟨hpn, hpc, ?_⟩
    have hv : targetPoseAt cfg (List.range n) d p = v := congrArg Prod.snd hpv
    rw [← hv, targetPoseAt_range hpn]
  · rintro ⟨hin, hic, rfl⟩
    refine List.mem_map.mpr ⟨i, List.mem_filter.mpr ⟨List.mem_range.mpr hin, by simpa using hic⟩, ?_⟩
    rw [range_getD hin, targetPoseAt_range hin]

theorem otherWrites_mem {cfg : Config} {d : Draws} {n m i : ℕ} {v : Pose} :
    (i, v) ∈ otherWrites cfg (List.range n) d m ↔
      i < n ∧ ∃ j, j < cfg.numModels - 1 ∧
        (othersIdx cfg.numModels (d.choice i)).getD j 0 = m ∧
        v = otherPoseAt cfg (List.range n) d i j := by
  rw [otherWrites, List.length_range]
  constructor
  · intro h
    rcases List.mem_flatMap.mp h with ⟨p, hp, hroot⟩
    have hpn : p < n := List.mem_range.mp hp
    rcases List.mem_filterMap.mp hroot with ⟨j, hj, hjv⟩
    have hjn : j < cfg.numModels - 1 := List.mem_range.mp hj
    by_cases hcond : (othersIdx cfg.numModels (d.choice p)).getD j 0 = m
    · rw [if_pos hcond] at hjv
      have hjv' := Option.some.inj hjv
      rw [range_getD hpn] at hjv'
      have hip : p = i := congrArg Prod.fst hjv'
      subst hip
      exact ⟨hpn, j, hjn, hcond, (congrArg Prod.snd hjv').symm⟩
    · rw [if_neg hcond] at hjv
      cases hjv
  · rintro ⟨hin, j, hjn, hjm, rfl⟩
    refine List.mem_flatMap.mpr ⟨i, List.mem_range.mpr hin, ?_⟩
    refine List.mem_filterMap.mpr ⟨j, List.mem_range.mpr hjn, ?_⟩
    rw [if_pos hjm, range_getD hin]

theorem exceptBind_ok {ε α β : Type} (a : α) (f : α → Except ε β) :
    (Except.ok a >>= f : Except ε β) = f a := rfl

theorem exceptMap_ok {ε α β : Type} (f : α → β) (a : α) :
    (Except.ok a : Except ε α).map f = .ok (f a) := rfl

/-- Net value of one model's two scatter passes at a subset position `e < n`
(identity subset): the target pose when slot `m` was chosen, the distractor
pose otherwise. -/
theorem updAll_writes_eq (cfg : Config) (d : Draws) {n m e : ℕ}
    (he : e < n) (hm : m < cfg.numModels)
    (hchoice : ∀ p, p < n → d.choice p < cfg.numModels)
    (hcols : ∀ p, p < n → d.cols p < cfg.numModels - 1)
    (buf0 : ℕ → Pose) :
    updAll (otherWrites cfg (List.range n) d m)
      (updAll (targetWrites cfg (List.range n) d m) buf0) e =
      writtenPose cfg d m e := by
  by_cases hc : d.choice e = m
  · rw [writtenPose, if_pos hc]
    have how : ∀ w ∈ otherWrites cfg (List.range n) d m, w.1 ≠ e := by
      rintro ⟨i, v⟩ hw hie
      have hie' : i = e := hie
      rcases (otherWrites_mem.mp hw).2 with ⟨j, hjn, hjm, _⟩
      have hin : i < n := by omega
      have hmem := othersIdx_getD_mem (hchoice i hin) hjn
      rw [hjm] at hmem
      refine (othersIdx_mem.mp hmem).2 ?_
      rw [hie', hc]
    rw [updAll_of_not_key _ _ _ how]
    refine updAll_of_key _ _ _ _ (targetWrites_mem.mpr ⟨he, hc, rfl⟩) ?_
    rintro ⟨i, v⟩ hw hie
    have hie' : i = e := hie
    have hv : v = targetPoseOfEnv cfg d i := (targetWrites_mem.mp hw).2.2
    show v = targetPoseOfEnv cfg d e
    rw [hv, hie']
  · have hcE : d.choice e < cfg.numModels := hchoice e he
    have hmne : m ≠ d.choice e := fun hmm => hc hmm.symm
    rcases othersIdx_exists_getD hcE hm hmne with ⟨j0, hj0, hj0m⟩
    rw [writtenPose, if_neg hc]
    refine updAll_of_key _ _ _ _
      (otherWrites_mem.mpr ⟨he, j0, hj0, hj0m,
        (otherPoseAt_eq he hj0 hcE (hcols e he) hj0m).symm⟩) ?_
    rintro ⟨i, v⟩ hw hie
    have hie' : i = e := hie
    rcases (otherWrites_mem.mp hw).2 with ⟨j, hjn, hjm, rfl⟩
    have hin : i < n := by omega
    have heq := otherPoseAt_eq hin hjn (hchoice i hin) (hcols i hin) hjm
    show otherPoseAt cfg (List.range n) d i j = distractorPoseOfEnv cfg d e m
    rw [heq, hie']

/-- One iteration of the per-model write loop over the identity subset
succeeds and updates exactly the poses of slot `m` for the subset
environments. -/
theorem stepModel_range_ok (cfg : Config) (d : Draws) {n m : ℕ}
    (poses : ℕ → ℕ → Pose) (hm : m < cfg.numModels)
    (hchoice : ∀ p, p < n → d.choice p < cfg.numModels)
    (hcols : ∀ p, p < n → d.cols p < cfg.numModels - 1) :
    stepModel cfg (List.range n) d poses m = .ok (fun m' =>
      if m' = m then (fun e => if e < n then writtenPose cfg d m e else poses m e)
      else poses m') := by
  have htb : ∀ w ∈ targetWrites cfg (List.range n) d m, w.1 < (List.range n).length := by
    rintro ⟨i, v⟩ hw
    rw [List.length_range]
    exact (targetWrites_mem.mp hw).1
  have hob : ∀ w ∈ otherWrites cfg (List.range n) d m, w.1 < (List.range n).length := by
    rintro ⟨i, v⟩ hw
    rw [List.length_range]
    exact (otherWrites_mem.mp hw).1
  rw [stepModel, scatterAll_ok _ _ _ htb, exceptBind_ok, scatterAll_ok _ _ _ hob,
    exceptBind_ok]
  show Except.ok _ = _
  congr 1
  funext m' e
  by_cases hm' : m' = m
  · subst hm'
    by_cases he : e < n
    · simp [he, writeToSim_range, updAll_writes_eq cfg d he hm hchoice hcols]
    · simp [he, writeToSim_range]
  · simp [hm']

/-- The whole per-model loop over the identity subset succeeds and leaves the
final written poses in closed form. -/
theorem foldlM_stepModel_ok (cfg : Config) (d : Draws) {n : ℕ}
    (hchoice : ∀ p, p < n → d.choice p < cfg.numModels)
    (hcols : ∀ p, p < n → d.cols p < cfg.numModels - 1) :
    ∀ (l : List ℕ), (∀ m ∈ l, m < cfg.numModels) → ∀ (init : ℕ → ℕ → Pose),
      l.foldlM (stepModel cfg (List.range n) d) init =
        .ok (fun m e => if m ∈ l ∧ e < n then writtenPose cfg d m e else init m e) := by
  intro l
  induction l with
  | nil =>
    intro _ init
    have hfun : (fun m e =>
        if m ∈ ([] : List ℕ) ∧ e < n then writtenPose cfg d m e else init m e) = init := by
      funext m e
      simp
    rw [List.foldlM_nil, hfun]
    rfl
  | cons m l ih =>
    intro hml init
    rw [List.foldlM_cons,
      stepModel_range_ok cfg d init (hml m (List.mem_cons_self _ _)) hchoice hcols,
      exceptBind_ok, ih (fun m' hm' => hml m' (List.mem_cons_of_mem _ hm'))]
    congr 1
    funext m' e
    by_cases h1 : m' ∈ l <;> by_cases h2 : e < n <;> by_cases h3 : m' = m <;>
      simp [h1, h2, h3]

/-- Master lemma: a `sample_models_for_envs` call over the identity subset
`[0, ..., n-1]` (the shape of a full reset) with in-range draws succeeds, and
the resulting state is given in closed form. -/
theorem sampler_range_ok (cfg : Config) (st : EnvState) (d : Draws) (n : ℕ)
    (hn : n ≤ cfg.numEnvs)
    (hk2 : 2 ≤ cfg.numModels)
    (hP : 0 < cfg.numProposals)
    (hchoice : ∀ p, p < n → d.choice p < cfg.numModels)
    (hcols : ∀ p, p < n → d.cols p < cfg.numModels - 1)
    (hst : ∀ e, st.currentTarget e < cfg.numModels) :
    sampleModelsForEnvs cfg st (List.range n) d = .ok
      { st with
        currentTarget := fun e => if e < n then d.choice e else st.currentTarget e
        currentTargetModelId := fun e =>
          cfg.modelIds e (if e < n then d.choice e else st.currentTarget e)
        targetPos := (List.range n).map (fun p =>
          cfg.kitTargetStartingPos (kitIdOf cfg p) (d.startIdx p))
        targetQuat := (List.range n).map (fun p => quatFromEulerXYZ 0 0 (d.rotT p))
        targetGoalPos := (List.range n).map (fun p =>
          cfg.modelTargetPos (kitIdOf cfg p) (d.choice p))
        targetGoalRot := (List.range n).map (fun p =>
          cfg.modelTargetRot (kitIdOf cfg p) (d.choice p))
        modelPoses := fun m e =>
          if m < cfg.numModels ∧ e < n then writtenPose cfg d m e
          else st.modelPoses m e } := by
  have hct := ctAfter_range st n d
  have hall : ∀ e ∈ List.range n, e < cfg.numEnvs := by
    intro e he
    have := List.mem_range.mp he
    omega
  have hgather : ∀ e < cfg.numEnvs, ctAfter st (List.range n) d e < cfg.numModels := by
    intro e _
    simp only [hct]
    by_cases he : e < n
    · simp only [if_pos he]
      exact hchoice e he
    · simp only [if_neg he]
      exact hst e
  rw [sampleModelsForEnvs]
  rw [dif_neg (not_not_intro hall), dif_neg (by omega : ¬ cfg.numModels = 0),
    dif_neg (not_not_intro hgather), dif_neg (by omega : ¬ cfg.numProposals = 0),
    dif_neg (by omega : ¬ cfg.numModels - 1 = 0),
    foldlM_stepModel_ok cfg d hchoice hcols (List.range cfg.numModels)
      (fun m hm => List.mem_range.mp hm), exceptMap_ok]
  congr 1
  refine EnvState.ext ?_ ?_ ?_ ?_ ?_ ?_ ?_ rfl rfl rfl rfl
  · exact hct
  · funext e
    simp only [hct]
  · rw [List.length_range]
    refine List.map_congr_left ?_
    intro p hp
    rw [range_getD (List.mem_range.mp hp)]
  · rw [List.length_range]
  · rw [List.length_range]
    refine List.map_congr_left ?_
    intro p hp
    rw [range_getD (List.mem_range.mp hp)]
  · rw [List.length_range]
    refine List.map_congr_left ?_
    intro p hp
    rw [range_getD (List.mem_range.mp hp)]
  · funext m e
    simp [List.mem_range]

/-- Inversion of any *completed* sampler call (arbitrary `env_ids`): the
episode-state goal fields are wholesale re-assigned to the kit-local goal
rows of the drawn slots, indexed by subset position. -/
theorem sampler_ok_targetGoal {cfg : Config} {st : EnvState} {envIds : List ℕ}
    {d : Draws} {s' : EnvState}
    (h : sampleModelsForEnvs cfg st envIds d = .ok s') :
    s'.targetGoalPos = (List.range envIds.length).map (fun p =>
        cfg.modelTargetPos (kitIdOf cfg (envIds.getD p 0)) (d.choice p)) ∧
    s'.targetGoalRot = (List.range envIds.length).map (fun p =>
        cfg.modelTargetRot (kitIdOf cfg (envIds.getD p 0)) (d.choice p)) := by
  rw [sampleModelsForEnvs] at h
  dsimp only [] at h
  split at h
  · exact Except.noConfusion h
  · split at h
    · exact Except.noConfusion h
    · split at h
      · exact Except.noConfusion h
      · split at h
        · exact Except.noConfusion h
        · split at h
          · exact Except.noConfusion h
          · cases hfold : (List.range cfg.numModels).foldlM
                (stepModel cfg envIds d) st.modelPoses with
            | error msg =>
              rw [hfold] at h
              exact Except.noConfusion h
            | ok poses' =>
              rw [hfold, exceptMap_ok] at h
              obtain rfl := Except.ok.inj h
              exact ⟨rfl, rfl⟩

/-! ## Frame-math lemmas for the world-TCP claim -/

theorem quatMul_id (q : Quat) : quatMul idQuat q = q := by
  rw [quatMul, idQuat]
  ext <;> dsimp <;> ring

theorem quatApply_id (v : Vec3) : quatApply idQuat v = v := by
  rw [quatApply, idQuat, quatVec]
  ext <;> dsimp [cross, smul3] <;> ring

/-! ## Arithmetic helpers for the symmetry fold -/

theorem fmod_of_lt {c P : ℝ} (hP : 0 < P) (h0 : 0 ≤ c) (h1 : c < 1) :
    fmod (c * P) P = c * P := by
  rw [fmod, mul_div_cancel_right₀ _ (ne_of_gt hP),
    Int.floor_eq_zero_iff.mpr (Set.mem_Ico.mpr ⟨h0, h1⟩)]
  push_cast
  ring

theorem fmod_self {P : ℝ} (hP : 0 < P) : fmod P P = 0 := by
  rw [fmod, div_self (ne_of_gt hP), Int.floor_one]
  push_cast
  ring

/-! ## Claim theorems -/

/-- C3: for every environment, `is_success` (with its default tolerances)
returns true if and only if all three checks hold: the Euclidean distance
between the target's current XY position and the goal XY position is strictly
less than `pos_eps = 0.02`, the symmetry-folded Z-rotation error is strictly
less than `rot_eps` = 4 degrees = `π/45` radians (≈ 0.0698), and the target's
current Z position is strictly less than `height_eps = 0.003`. -/
theorem claimC3 (cfg : Config) (s : EnvState) (i : ℕ) :
    isSuccess cfg s posEpsDefault rotEpsDefault heightEpsDefault i ↔
      euclideanDistXY (getTargetModelPose cfg s i).pos (targetGoalPosAt s i) < 0.02 ∧
      rotDiffVal cfg s i < Real.pi / 45 ∧
      (getTargetModelPose cfg s i).pos.z < 0.003 := by
  have hdist : posDiffNorm cfg s i =
      euclideanDistXY (getTargetModelPose cfg s i).pos (targetGoalPosAt s i) := by
    rw [posDiffNorm, euclideanDistXY]
    congr 1
    ring
  have heps : rotEpsDefault = Real.pi / 45 := by
    rw [rotEpsDefault]
    ring
  have hpos : posEpsDefault = (0.02 : ℝ) := rfl
  have hh : heightEpsDefault = (0.003 : ℝ) := rfl
  rw [isSuccess, hdist, heps, hpos, hh]

/-- C4: the rotational error used by `is_success` reduces the absolute
angular difference modulo the shape's symmetry period `P` (not modulo `2π`)
and then folds it to the shorter arc (`P - d` when the wrapped difference `d`
exceeds `P/2`); consequently raw errors of `0.49·P` and `0.51·P` both fold to
exactly `0.49·P`, and a raw error of a full period folds to `0`. -/
theorem claimC4 (P goal : ℝ) (hP : 0 < P) :
    rotDiffFolded (goal + (49 / 100) * P) goal P = (49 / 100) * P ∧
    rotDiffFolded (goal + (51 / 100) * P) goal P = (49 / 100) * P ∧
    rotDiffFolded (goal + P) goal P = 0 := by
  refine ⟨?_, ?_, ?_⟩
  · dsimp only [rotDiffFolded]
    rw [show goal + (49 / 100) * P - goal = (49 / 100) * P from by ring,
      abs_of_nonneg (by nlinarith), fmod_of_lt hP (by norm_num) (by norm_num),
      if_neg (by intro hlt; nlinarith)]
  · dsimp only [rotDiffFolded]
    rw [show goal + (51 / 100) * P - goal = (51 / 100) * P from by ring,
      abs_of_nonneg (by nlinarith), fmod_of_lt hP (by norm_num) (by norm_num),
      if_pos (by nlinarith)]
    ring
  · dsimp only [rotDiffFolded]
    rw [show goal + P - goal = P from by ring, abs_of_nonneg hP.le, fmod_self hP,
      if_neg (by intro hlt; nlinarith)]

/-- Witness for C4 at `P = 2`, `goal = 0`. -/
theorem claimC4_witness :
    (0 : ℝ) < 2 ∧
    (rotDiffFolded (0 + (49 / 100) * 2) 0 2 = (49 / 100) * 2 ∧
     rotDiffFolded (0 + (51 / 100) * 2) 0 2 = (49 / 100) * 2 ∧
     rotDiffFolded (0 + 2) 0 2 = 0) :=
  ⟨two_pos, claimC4 2 0 two_pos⟩

/-- C8: for every environment and state, the reward is `+1` exactly when the
done signal's `terminated` component holds and `-1` otherwise, and the
`timed_out` component holds exactly when the elapsed step count is at least
the configured episode length minus one. -/
theorem claimC8 (cfg : Config) (s : EnvState) (i : ℕ) :
    (computeRewards cfg s i = 1 ↔ (getDones cfg s i).1) ∧
    (computeRewards cfg s i = -1 ↔ ¬ (getDones cfg s i).1) ∧
    ((getDones cfg s i).2 ↔ cfg.maxEpisodeLength - 1 ≤ s.episodeLengthBuf i) := by
  rw [computeRewards, getDones]
  by_cases h : isSuccessDefault cfg s i
  · rw [if_pos h]
    exact ⟨⟨fun _ => h, fun _ => rfl⟩,
      ⟨fun h1 => absurd h1 (by norm_num), fun h2 => absurd h h2⟩, Iff.rfl⟩
  · rw [if_neg h]
    exact ⟨⟨fun h1 => absurd h1 (by norm_num), fun h2 => absurd h2 h⟩,
      ⟨fun _ => h, fun _ => rfl⟩, Iff.rfl⟩

/-- C9: the world-TCP computation returns the composition of the current
wrist world pose with the cached local TCP, with the environment origin
subtracted from the position; in particular, an identity wrist pose yields
the cached local TCP translated by the environment origin, rotation
unchanged. -/
theorem claimC9 (cfg : Config) (s : EnvState) (i : ℕ) :
    computeTcpWorld cfg s i =
      (quatApply (s.handPose i).quat (s.localGraspPos i) + (s.handPose i).pos -
        cfg.envOrigin i,
       quatMul (s.handPose i).quat (s.localGraspRot i)) ∧
    (s.handPose i = ⟨⟨0, 0, 0⟩, idQuat⟩ →
      computeTcpWorld cfg s i =
        (s.localGraspPos i - cfg.envOrigin i, s.localGraspRot i)) := by
  constructor
  · rfl
  · intro h
    rw [computeTcpWorld, h]
    dsimp only [tfCombine]
    rw [quatApply_id, quatMul_id]
    refine congrArg (fun v => (v, s.localGraspRot i)) ?_
    ext <;> simp [smul3]

/-- Witness for C9: the baseline state's wrist pose is the identity. -/
theorem claimC9_witness :
    stBase.handPose 0 = ⟨⟨0, 0, 0⟩, idQuat⟩ ∧
    computeTcpWorld cfgC1 stBase 0 =
      (stBase.localGraspPos 0 - cfgC1.envOrigin 0, stBase.localGraspRot 0) :=
  ⟨rfl, (claimC9 cfgC1 stBase 0).2 rfl⟩

/-- C10: the height check of `is_success` has no lower bound — any current Z
strictly below `height_eps` passes it, arbitrarily negative values included:
an environment whose target passes the XY and rotation checks is reported
successful even 100 length units below the kit surface. -/
theorem claimC10 (cfg : Config) (s : EnvState) (i : ℕ)
    (hpos : posDiffNorm cfg s i < posEpsDefault)
    (hrot : rotDiffVal cfg s i < rotEpsDefault)
    (hz : (getTargetModelPose cfg s i).pos.z ≤ -100) :
    isSuccess cfg s posEpsDefault rotEpsDefault heightEpsDefault i := by
  refine ⟨hpos, hrot, ?_⟩
  have hh : (-100 : ℝ) < heightEpsDefault := by
    rw [heightEpsDefault]
    norm_num
  linarith

/-- Witness for C10: a target at its goal XY and rotation but at `z = -100`
is reported successful. -/
theorem claimC10_witness :
    posDiffNorm cfgC1 stC10 0 < posEpsDefault ∧
    rotDiffVal cfgC1 stC10 0 < rotEpsDefault ∧
    (getTargetModelPose cfgC1 stC10 0).pos.z ≤ -100 ∧
    isSuccess cfgC1 stC10 posEpsDefault rotEpsDefault heightEpsDefault 0 := by
  have hpos : posDiffNorm cfgC1 stC10 0 < posEpsDefault := by
    have h0 : posDiffNorm cfgC1 stC10 0 = Real.sqrt (0 ^ 2 + 0 ^ 2) := by
      rw [posDiffNorm]
      norm_num [getTargetModelPose, targetGoalPosAt, stC10, stBase, cfgC1]
    rw [h0, posEpsDefault]
    norm_num [Real.sqrt_eq_zero']
  have hrot : rotDiffVal cfgC1 stC10 0 < rotEpsDefault := by
    have hz : eulerZ idQuat = 0 := by
      rw [eulerZ, idQuat, atan2]
      norm_num [Real.arctan_zero]
    have h0 : rotDiffVal cfgC1 stC10 0 = rotDiffFolded 0 0 1 := by
      rw [rotDiffVal]
      norm_num [getTargetModelPose, targetGoalRotAt, stC10, stBase, cfgC1, hz]
    have h1 : rotDiffFolded 0 0 1 = 0 := by
      dsimp only [rotDiffFolded]
      rw [show |(0 : ℝ) - 0| = 0 * 1 from by norm_num,
        fmod_of_lt one_pos (le_refl 0) one_pos,
        if_neg (by norm_num)]
      norm_num
    rw [h0, h1, rotEpsDefault]
    have : (0 : ℝ) < Real.pi / 180 := by
      have := Real.pi_pos
      linarith
    linarith
  have hz10 : (getTargetModelPose cfgC1 stC10 0).pos.z ≤ -100 := by
    norm_num [getTargetModelPose, stC10, stBase, cfgC1]
  exact ⟨hpos, hrot, hz10, claimC10 cfgC1 stC10 0 hpos hrot hz10⟩

theorem samplerW_ok :
    sampleModelsForEnvs cfgC1 stBase (List.range 1) dZero = .ok sW :=
  sampler_range_ok cfgC1 stBase dZero 1 (by decide) (by decide) (by decide)
    (by decide) (by decide) (fun _ => Nat.succ_pos 1)

theorem samplerWpick_ok :
    sampleModelsForEnvs cfgC1 stBase (List.range 1) dPick = .ok sWpick :=
  sampler_range_ok cfgC1 stBase dPick 1 (by decide) (by decide) (by decide)
    (by decide) (by decide) (fun _ => Nat.succ_pos 1)

/-! ## Sampler claim theorems -/

/-- C1: the claim (sampling a subset leaves every other environment's
recorded state untouched, for every seed) is violated by the code.  A
completed call on the subset `[0]` of a two-environment instance shrinks the
stored goal-record tensor to a single row, destroying environment 1's record;
a call on the subset `[1]` does not even complete — the per-model write
indexes the positionally-gathered one-row buffer with the global id 1 and
raises. -/
theorem claimC1 :
    ((sampleModelsForEnvs cfgC1 stBase [0] dZero).map
        (fun s => s.targetGoalPos.length) = .ok 1 ∧
      stBase.targetGoalPos.length = 2) ∧
    sampleModelsForEnvs cfgC1 stBase [1] dZero = .error "index out of range" :=
  ⟨⟨rfl, rfl⟩, rfl⟩

/-- C6: the claim (a `K = 1` kit makes the distractor-staging step a no-op
and the call completes) is violated by the code: `torch.randint(0,
num_models - 1, ...)` is evaluated unconditionally and raises for
`num_models = 1`. -/
theorem claimC6 :
    sampleModelsForEnvs cfgC6 stBase [0] dZero =
      .error "randint: from >= to (cols)" := rfl

/-- Counterexample to C2 as stated: after a completed call, the stored target
goal position is the Kit Variant's row verbatim (kit-local), not the claimed
kit-world-plus-row-minus-origin value. -/
theorem claimC2_counterexample :
    (sampleModelsForEnvs cfgC2 stBase [0] dZero).map
        (fun s => targetGoalPosAt s 0) = .ok ⟨0.1, 0.2, 0⟩ ∧
    (⟨0.1, 0.2, 0⟩ : Vec3) ≠ specGoalPosC2 cfgC2 0 0 := by
  refine ⟨rfl, ?_⟩
  simp only [specGoalPosC2, kitPosWOf, cfgC2, Vec3.add_def, Vec3.sub_def, ne_eq,
    Vec3.mk.injEq, not_and]
  intro hx
  norm_num at hx

/-- C2 (amended): after every *completed* sampler call, the stored target
goal pose at each subset position equals the Kit Variant's goal row (position
and Z-rotation) for the chosen slot of that environment's kit, verbatim in
kit-local coordinates — no kit world position is added and no environment
origin subtracted. -/
theorem claimC2 {cfg : Config} {st : EnvState} {envIds : List ℕ} {d : Draws}
    {s' : EnvState}
    (hok : sampleModelsForEnvs cfg st envIds d = .ok s')
    (p : ℕ) (hp : p < envIds.length) :
    targetGoalPosAt s' p =
      cfg.modelTargetPos (kitIdOf cfg (envIds.getD p 0)) (d.choice p) ∧
    targetGoalRotAt s' p =
      cfg.modelTargetRot (kitIdOf cfg (envIds.getD p 0)) (d.choice p) := by
  obtain ⟨h1, h2⟩ := sampler_ok_targetGoal hok
  constructor
  · rw [targetGoalPosAt, h1, List.getD_eq_getElem _ _ (by simpa using hp),
      List.getElem_map, List.getElem_range]
  · rw [targetGoalRotAt, h2, List.getD_eq_getElem _ _ (by simpa using hp),
      List.getElem_map, List.getElem_range]

/-- Witness for C2 (amended) on the completed identity reset of `cfgC1`. -/
theorem claimC2_witness :
    sampleModelsForEnvs cfgC1 stBase (List.range 1) dZero = .ok sW ∧
    0 < (List.range 1).length ∧
    (targetGoalPosAt sW 0 =
        cfgC1.modelTargetPos (kitIdOf cfgC1 ((List.range 1).getD 0 0)) (dZero.choice 0) ∧
      targetGoalRotAt sW 0 =
        cfgC1.modelTargetRot (kitIdOf cfgC1 ((List.range 1).getD 0 0)) (dZero.choice 0)) :=
  ⟨samplerW_ok, by decide, claimC2 samplerW_ok 0 (by decide)⟩

/-- Counterexample to C5 as stated: two runs identical in every kit-local
table, draw, and origin, differing only in the kit's default world position,
write the staged distractor at different positions — so the staged pose *is*
derived from the kit's world position (the fixed offset is added to it). -/
theorem claimC5_counterexample :
    (sampleModelsForEnvs cfgC1 stBase [0] dPick).map
        (fun s => (s.modelPoses 1 0).pos.x) ≠
      (sampleModelsForEnvs cfgC5b stBase [0] dPick).map
        (fun s => (s.modelPoses 1 0).pos.x) := by
  have ha : (sampleModelsForEnvs cfgC1 stBase [0] dPick).map
      (fun s => (s.modelPoses 1 0).pos.x) = .ok (0 + 0 + -0 : ℝ) := rfl
  have hb : (sampleModelsForEnvs cfgC5b stBase [0] dPick).map
      (fun s => (s.modelPoses 1 0).pos.x) = .ok (1 + 0 + -0 : ℝ) := rfl
  rw [ha, hb]
  simp only [ne_eq, Except.ok.injEq]
  norm_num

/-- C5 (amended): after every completed call whose subset is `0, …, n-1` in
increasing order (the shape of a full reset), when the per-environment coin
flip picks, the staged distractor's written pose is the kit's current world
position plus the fixed offset `(-table_offset, 0.2, 0.1)`; the *offset* is
a task-wide constant (independent of the kit variant and its tables), but
the written pose is kit-relative — exactly like the goal placements — with
the goal Z-rotation kept.  (On other completed subsets the same
global-vs-positional indexing slip recorded under C1/C7 misdirects the
write, so the restriction is forced.) -/
theorem claimC5 (cfg : Config) (st : EnvState) (d : Draws) (n : ℕ) (s' : EnvState)
    (hn : n ≤ cfg.numEnvs) (hk2 : 2 ≤ cfg.numModels) (hP : 0 < cfg.numProposals)
    (hchoice : ∀ p, p < n → d.choice p < cfg.numModels)
    (hcols : ∀ p, p < n → d.cols p < cfg.numModels - 1)
    (hst : ∀ e, st.currentTarget e < cfg.numModels)
    (hok : sampleModelsForEnvs cfg st (List.range n) d = .ok s') :
    ∀ e, e < n → d.doPick e = true →
      stagedSlotOf cfg d e < cfg.numModels ∧
      stagedSlotOf cfg d e ≠ d.choice e ∧
      s'.modelPoses (stagedSlotOf cfg d e) e =
        ⟨kitPosWOf cfg e + stagedOffset cfg,
         quatFromEulerXYZ 0 0
           (cfg.modelTargetRot (kitIdOf cfg e) (stagedSlotOf cfg d e))⟩ := by
  rw [sampler_range_ok cfg st d n hn hk2 hP hchoice hcols hst] at hok
  obtain rfl := Except.ok.inj hok
  intro e he hpick
  have hs : stagedSlotOf cfg d e < cfg.numModels ∧ stagedSlotOf cfg d e ≠ d.choice e :=
    othersIdx_mem.mp (othersIdx_getD_mem (hchoice e he) (hcols e he))
  refine ⟨hs.1, hs.2, ?_⟩
  show (if stagedSlotOf cfg d e < cfg.numModels ∧ e < n
      then writtenPose cfg d (stagedSlotOf cfg d e) e
      else st.modelPoses (stagedSlotOf cfg d e) e) = _
  rw [if_pos ⟨hs.1, he⟩, writtenPose, if_neg (fun hc => hs.2 hc.symm),
    distractorPoseOfEnv, if_pos ⟨hpick, rfl⟩]

/-- Witness for C5 (amended) on the completed identity reset of `cfgC1` with
a picking coin flip. -/
theorem claimC5_witness :
    sampleModelsForEnvs cfgC1 stBase (List.range 1) dPick = .ok sWpick ∧
    (∀ e, e < 1 → dPick.doPick e = true →
      stagedSlotOf cfgC1 dPick e < cfgC1.numModels ∧
      stagedSlotOf cfgC1 dPick e ≠ dPick.choice e ∧
      sWpick.modelPoses (stagedSlotOf cfgC1 dPick e) e =
        ⟨kitPosWOf cfgC1 e + stagedOffset cfgC1,
         quatFromEulerXYZ 0 0
           (cfgC1.modelTargetRot (kitIdOf cfgC1 e) (stagedSlotOf cfgC1 dPick e))⟩) :=
  ⟨samplerWpick_ok,
   claimC5 cfgC1 stBase dPick 1 sWpick (by decide) (by decide) (by decide)
     (by decide) (by decide) (fun _ => Nat.succ_pos 1) samplerWpick_ok⟩

/-- Counterexample to C7 as stated: a *completed* call on the permuted subset
`[1, 0]` writes environment 1's non-target slot at x-coordinate `1` — neither
its kit goal pose (x = 102) nor the staging pose (x = 100): the global ids
`envs_t`/`envs_o` address the positionally-gathered buffer, so the two
environments' rows are swapped. -/
theorem claimC7_counterexample :
    (sampleModelsForEnvs cfgC7 stBase [1, 0] dZero).map
        (fun s => (s.modelPoses 1 1).pos.x) = .ok (0 + 0 + 1 : ℝ) ∧
    ((0 + 0 + 1 : ℝ) ≠ (kitPosWOf cfgC7 1 + cfgC7.modelTargetPos (kitIdOf cfgC7 1) 1).x ∧
     (0 + 0 + 1 : ℝ) ≠ (kitPosWOf cfgC7 1 + stagedOffset cfgC7).x) := by
  refine ⟨rfl, ?_, ?_⟩ <;> norm_num [kitPosWOf, kitIdOf, stagedOffset, cfgC7]

/-- C7 (amended): after every *completed* call whose subset is `0, …, n-1` in
increasing order (the shape of a full reset), each subset environment has
exactly the drawn slot recorded as target with the drawn starting pose
written there, at most one distractor is written at the staging pose, and
every other distractor is written at its kit goal pose. -/
theorem claimC7 (cfg : Config) (st : EnvState) (d : Draws) (n : ℕ) (s' : EnvState)
    (hn : n ≤ cfg.numEnvs) (hk2 : 2 ≤ cfg.numModels) (hP : 0 < cfg.numProposals)
    (hchoice : ∀ p, p < n → d.choice p < cfg.numModels)
    (hcols : ∀ p, p < n → d.cols p < cfg.numModels - 1)
    (hst : ∀ e, st.currentTarget e < cfg.numModels)
    (hok : sampleModelsForEnvs cfg st (List.range n) d = .ok s') :
    ∀ e, e < n →
      s'.currentTarget e = d.choice e ∧ d.choice e < cfg.numModels ∧
      s'.modelPoses (s'.currentTarget e) e = targetPoseOfEnv cfg d e ∧
      (∃ staged : Finset ℕ, staged.card ≤ 1 ∧
        (∀ m ∈ staged, m < cfg.numModels ∧ m ≠ s'.currentTarget e ∧
          s'.modelPoses m e =
            ⟨kitPosWOf cfg e + stagedOffset cfg,
             quatFromEulerXYZ 0 0 (cfg.modelTargetRot (kitIdOf cfg e) m)⟩) ∧
        (∀ m, m < cfg.numModels → m ≠ s'.currentTarget e → m ∉ staged →
          s'.modelPoses m e =
            ⟨kitPosWOf cfg e + cfg.modelTargetPos (kitIdOf cfg e) m,
             quatFromEulerXYZ 0 0 (cfg.modelTargetRot (kitIdOf cfg e) m)⟩)) := by
  rw [sampler_range_ok cfg st d n hn hk2 hP hchoice hcols hst] at hok
  obtain rfl := Except.ok.inj hok
  intro e he
  have hct : (if e < n then d.choice e else st.currentTarget e) = d.choice e :=
    if_pos he
  refine ⟨hct, hchoice e he, ?_, ?_⟩
  · show (fun m e => if m < cfg.numModels ∧ e < n then writtenPose cfg d m e
        else st.modelPoses m e) (if e < n then d.choice e else st.currentTarget e) e = _
    rw [hct]
    show (if d.choice e < cfg.numModels ∧ e < n then writtenPose cfg d (d.choice e) e
        else st.modelPoses (d.choice e) e) = _
    rw [if_pos ⟨hchoice e he, he⟩, writtenPose, if_pos rfl]
  · refine ⟨if d.doPick e then {stagedSlotOf cfg d e} else ∅, ?_, ?_, ?_⟩
    · by_cases hd : d.doPick e
      · rw [if_pos hd]
        exact le_refl 1
      · rw [if_neg hd]
        exact Nat.zero_le 1
    · intro m hm
      by_cases hd : d.doPick e
      · rw [if_pos hd] at hm
        obtain rfl := Finset.mem_singleton.mp hm
        have hs : stagedSlotOf cfg d e < cfg.numModels ∧
            stagedSlotOf cfg d e ≠ d.choice e :=
          othersIdx_mem.mp (othersIdx_getD_mem (hchoice e he) (hcols e he))
        refine ⟨hs.1, fun hEq => hs.2 (hEq.trans hct), ?_⟩
        show (if stagedSlotOf cfg d e < cfg.numModels ∧ e < n
            then writtenPose cfg d (stagedSlotOf cfg d e) e
            else st.modelPoses (stagedSlotOf cfg d e) e) = _
        rw [if_pos ⟨hs.1, he⟩, writtenPose, if_neg (fun hc => hs.2 hc.symm),
          distractorPoseOfEnv, if_pos ⟨hd, rfl⟩]
      · rw [if_neg hd] at hm
        exact absurd hm (Finset.not_mem_empty _)
    · intro m hmK hmne hmst
      have hmne' : m ≠ d.choice e := fun hEq => hmne (hEq.trans hct.symm)
      show (if m < cfg.numModels ∧ e < n then writtenPose cfg d m e
          else st.modelPoses m e) = _
      rw [if_pos ⟨hmK, he⟩, writtenPose, if_neg (fun hc => hmne' hc.symm),
        distractorPoseOfEnv, if_neg ?_]
      rintro ⟨hp1, hp2⟩
      apply hmst
      rw [if_pos hp1]
      exact Finset.mem_singleton.mpr hp2.symm

/-- Witness for C7 (amended) on the completed identity reset of `cfgC1`. -/
theorem claimC7_witness :
    sampleModelsForEnvs cfgC1 stBase (List.range 1) dZero = .ok sW ∧
    (∀ e, e < 1 →
      sW.currentTarget e = dZero.choice e ∧ dZero.choice e < cfgC1.numModels ∧
      sW.modelPoses (sW.currentTarget e) e = targetPoseOfEnv cfgC1 dZero e ∧
      (∃ staged : Finset ℕ, staged.card ≤ 1 ∧
        (∀ m ∈ staged, m < cfgC1.numModels ∧ m ≠ sW.currentTarget e ∧
          sW.modelPoses m e =
            ⟨kitPosWOf cfgC1 e + stagedOffset cfgC1,
             quatFromEulerXYZ 0 0 (cfgC1.modelTargetRot (kitIdOf cfgC1 e) m)⟩) ∧
        (∀ m, m < cfgC1.numModels → m ≠ sW.currentTarget e → m ∉ staged →
          sW.modelPoses m e =
            ⟨kitPosWOf cfgC1 e + cfgC1.modelTargetPos (kitIdOf cfgC1 e) m,
             quatFromEulerXYZ 0 0 (cfgC1.modelTargetRot (kitIdOf cfgC1 e) m)⟩))) :=
  ⟨samplerW_ok,
   claimC7 cfgC1 stBase dZero 1 sW (by decide) (by decide) (by decide)
     (by decide) (by decide) (fun _ => Nat.succ_pos 1) samplerW_ok⟩

end AssemblyKit
